import Mathlib

/-!
Shallow embedding of the calendar core of the `my-new-tab` Chrome extension.

Time model: a JavaScript `Date` holds a time value in milliseconds since the
epoch; all instants in this repository have whole-minute resolution, so we
model a time value as an `Int` counting minutes since the epoch.  The local
time zone is modelled with UTC offset 0 (no DST), so the local civil day of a
time value `t` is `t / 1440` (floor division; Lean's `/` on `Int` rounds
toward negative infinity for a positive divisor) and local midnight of that
day is `1440 * (t / 1440)`.  Under this fixed offset, JavaScript's
`d.setDate(d.getDate() + n)` adds exactly `1440 * n` minutes.

An ECMAScript `Date` whose time value is NaN (an *Invalid Date*, e.g. the
result of `new Date(undefined)`) is modelled as `none : Option Int`; every
`<`/`<=`/`>`/`>=` comparison against NaN is false, which `jsLe`/`jsLt` mirror.

Calendar civil dates are keyed by their civil day number.  The source keys its
bucket object by the string `YYYY-MM-DD` built from the local civil date of
the iterated `Date`; that string is a canonical rendering of the civil day
(one string per day number and vice versa), so buckets here are keyed by the
civil day number directly.  The string formatting itself is modelled
separately for `TimeUtils.getDateKey` / `TimeUtils.parseDateKey`.
-/

/-- A JavaScript `Date` value: `some t` is the instant `t` in minutes since
the epoch, `none` is an Invalid Date (time value NaN). -/
abbrev JSDate := Option Int

/-- JavaScript `<=` on `Date` values: comparisons against an Invalid Date
(NaN) are false. -/
def jsLe : JSDate → JSDate → Bool
  | some a, some b => a ≤ b
  | _, _ => false

/-- JavaScript `<` on `Date` values: comparisons against an Invalid Date
(NaN) are false. -/
def jsLt : JSDate → JSDate → Bool
  | some a, some b => a < b
  | _, _ => false

/-- The local civil day number of an instant (minutes since epoch):
floor division by the 1440 minutes of a day. -/
def civilDay (t : Int) : Int := t / 1440

/-- The `start` / `end` field of a calendar event: `{ dateTime }` holds a
parsed ISO-8601 instant (timed events), `{ date }` holds a civil day number
(all-day events).  Both may be absent (a malformed event). -/
structure EventTime where
  dateTime : Option Int
  date     : Option Int
deriving Repr, DecidableEq

/-- A calendar event as supplied by the event source (§3 of the spec). -/
structure CalendarEvent where
  summary  : String
  location : Option String
  start    : EventTime
  «end»    : EventTime
deriving Repr, DecidableEq

/-- `new Date(t.dateTime || t.date)`: the `dateTime` instant when present,
else the `date` civil day parsed at midnight (UTC-offset-0 model), else an
Invalid Date (`new Date(undefined)` has time value NaN and does not throw,
per ECMA-262). -/
def parseEventTime (t : EventTime) : JSDate :=
  match t.dateTime with
  | some x => some x
  | none =>
    match t.date with
    | some d => some (1440 * d)
    | none => none

/-- The end `Date` after the all-day adjustment in `groupEventsByDate`
(CalendarService.js line 61-63): `if (event.start.date) endDate.setDate(endDate.getDate() - 1)`.
Subtracting one civil day is subtracting 1440 minutes in the fixed-offset
model; `setDate` on an Invalid Date leaves it invalid. -/
def adjustedEnd (ev : CalendarEvent) : JSDate :=
  if ev.start.date.isSome then (parseEventTime ev.«end»).map (fun t => t - 1440)
  else parseEventTime ev.«end»

/-- One iteration of the `while (currentDate <= endDate)` loop of
`groupEventsByDate` (CalendarService.js lines 69-78), collecting the civil
day keys that get pushed onto `eventDates`.  The `fuel` argument only bounds
the number of iterations so that the recursion is structural; `collectDays`
passes fuel that is always sufficient (the loop advances `current` by 1440
each step). -/
def collectDaysAux : Nat → Int → Int → Int → List Int
  | 0, _, _, _ => []
  | fuel + 1, current, endTs, today =>
    if current ≤ endTs then
      (if today ≤ current then [civilDay current] else []) ++
        collectDaysAux fuel (current + 1440) endTs today
    else []

/-- The civil day keys produced by the day loop of `groupEventsByDate` for a
start instant, an (adjusted) end instant and the `today` midnight instant. -/
def collectDays (startTs endTs today : Int) : List Int :=
  collectDaysAux (endTs + 1440 - startTs).toNat startTs endTs today

/-- The `eventDates` list of `groupEventsByDate` for one event: the day loop
runs on the parsed start and adjusted end.  If either `Date` is invalid the
loop condition `currentDate <= endDate` is a NaN comparison, hence false, and
no date is collected. -/
def eventDays (ev : CalendarEvent) (today : Int) : List Int :=
  match parseEventTime ev.start, adjustedEnd ev with
  | some s, some e => collectDays s e today
  | _, _ => []

/-- `if (!grouped[dateKey]) grouped[dateKey] = []; grouped[dateKey].push(event)`
on the bucket object, modelled as an association list in key insertion order
(new keys are appended at the end, matching JS object key order for
non-integer-like string keys). -/
def addToBucket (grouped : List (Int × List CalendarEvent)) (key : Int)
    (ev : CalendarEvent) : List (Int × List CalendarEvent) :=
  match grouped with
  | [] => [(key, [ev])]
  | (k, evs) :: rest =>
    if k = key then (k, evs ++ [ev]) :: rest
    else (k, evs) :: addToBucket rest key ev

/-- `grouped[dateKey]` read access: the event list stored under a day key,
`[]` when the key is absent. -/
def getBucket (grouped : List (Int × List CalendarEvent)) (d : Int) :
    List CalendarEvent :=
  match grouped with
  | [] => []
  | (k, evs) :: rest => if k = d then evs else getBucket rest d

/-- The sort key of the per-bucket comparator
`new Date(a.start.dateTime || a.start.date)` (CalendarService.js lines 91-95):
the effective start instant.  Every event that reaches a bucket has a valid
parsed start (an Invalid start never passes the day loop), so the `getD 0`
default is never what the comparator sees on bucketed events. -/
def sortKey (ev : CalendarEvent) : Int := (parseEventTime ev.start).getD 0

/-- Insert an event into an already-sorted list, keeping order by `sortKey`. -/
def insertByStart (ev : CalendarEvent) :
    List CalendarEvent → List CalendarEvent
  | [] => [ev]
  | x :: xs =>
    if sortKey ev ≤ sortKey x then ev :: x :: xs else x :: insertByStart ev xs

/-- `grouped[date].sort((a, b) => timeA - timeB)`: a stable sort of a bucket
by effective start instant, modelled by insertion sort (the model only relies
on the output being a permutation sorted by the comparator key, which any
correct `Array.prototype.sort` guarantees). -/
def sortEvents : List CalendarEvent → List CalendarEvent
  | [] => []
  | x :: xs => insertByStart x (sortEvents xs)

/-- `CalendarService.groupEventsByDate` (CalendarService.js lines 51-99;
`NewTabPage.groupEventsByDate` in newtab.js lines 103-152 is an identical
copy).  `now` is the clock reading the source takes via `new Date()`;
`today` is local midnight of `now`'s civil day.  Returns the bucket object
as an association list from civil day number to the day's events, each
bucket sorted by effective start. -/
def groupEventsByDate (events : List CalendarEvent) (now : Int) :
    List (Int × List CalendarEvent) :=
  let today := 1440 * civilDay now
  let grouped := events.foldl
    (fun g ev => (eventDays ev today).foldl (fun g k => addToBucket g k ev) g)
    []
  grouped.map (fun p => (p.1, sortEvents p.2))

/-- `String(n).padStart(2, '0')` for the numbers appearing in time labels. -/
def padTwoString (n : Nat) : String :=
  if n < 10 then "0" ++ toString n else toString n

/-- `toLocaleTimeString('en-US', { hour: '2-digit', minute: '2-digit',
hour12: true })` of an instant, in the fixed-offset model: 12-hour clock with
zero-padded hour and minute and an AM/PM suffix. -/
def formatTimeOfDay (t : Int) : String :=
  let tod := (t.emod 1440).toNat
  let h := tod / 60
  let m := tod % 60
  let h12 := if h % 12 = 0 then 12 else h % 12
  let suffix := if h < 12 then " AM" else " PM"
  padTwoString h12 ++ ":" ++ padTwoString m ++ suffix

/-- `toLocaleTimeString` on a possibly Invalid `Date` (an Invalid Date
renders as the string "Invalid Date"). -/
def jsFormatTime : JSDate → String
  | some t => formatTimeOfDay t
  | none => "Invalid Date"

/-- The `timeString` computed by `NewTabPage.renderEvent`
(newtab.js lines 181-258; `CalendarRenderer.renderEvent` in tests/setup.js
lines 917-994 is an identical copy) for an event rendered on the agenda day
`day` (the parsed `currentDateString`, i.e. local midnight `1440 * day`).
Note the interval shapes of the source: for timed events `isFirstDay` tests
`startTime` in `[dayStart, dayEnd)` while `isLastDay` tests `endTime` in
`(dayStart, dayEnd]`; for all-day events both tests use `[dayStart, dayEnd)`
on the adjusted end. -/
def renderEventTimeString (ev : CalendarEvent) (day : Int) : String :=
  let startTime := parseEventTime ev.start
  let endTime := adjustedEnd ev
  let currentDateStart : Int := 1440 * day
  let currentDateEnd : Int := currentDateStart + 1440
  if ev.start.dateTime.isSome then
    let isFirstDay := jsLe (some currentDateStart) startTime &&
      jsLt startTime (some currentDateEnd)
    let isLastDay := jsLt (some currentDateStart) endTime &&
      jsLe endTime (some currentDateEnd)
    if isFirstDay && isLastDay then
      jsFormatTime startTime ++ " - " ++ jsFormatTime endTime
    else if isFirstDay then
      jsFormatTime startTime ++ " - ..."
    else if isLastDay then
      "... - " ++ jsFormatTime endTime
    else
      "All day"
  else
    let isFirstDay := jsLe (some currentDateStart) startTime &&
      jsLt startTime (some currentDateEnd)
    let isLastDay := jsLe (some currentDateStart) endTime &&
      jsLt endTime (some currentDateEnd)
    if isFirstDay && isLastDay then "All day"
    else if isFirstDay then "All day (starts)"
    else if isLastDay then "All day (ends)"
    else "All day"

/-- The time cell text of `CalendarRenderer.renderCalendarEvent`
(tests/setup.js lines 850-869; `NewTabPage.renderCalendarEvent` in newtab.js
is an identical copy): the compact grid-day renderer.  The `dateKey`
parameter is accepted and ignored exactly as in the source. -/
def renderCalendarEventTimeString (ev : CalendarEvent) (dateKey : Int) :
    String :=
  let startTime := parseEventTime ev.start
  let isAllDay := !ev.start.dateTime.isSome
  if isAllDay then "All day" else jsFormatTime startTime

/-- The `maxVisible` constant of the overflow policy: the literal `2` of
`events.slice(0, 2)` in `renderCalendarDay`. -/
def maxVisibleEvents : Nat := 2

/-- The events rendered by `CalendarRenderer.renderCalendarDay`
(tests/setup.js lines 800-837): all of them when `expandCalendarDays` is
enabled, else `events.slice(0, 2)`. -/
def visibleEvents (expandCalendarDays : Bool)
    (events : List CalendarEvent) : List CalendarEvent :=
  if expandCalendarDays then events else events.take 2

/-- The overflow count of `renderCalendarDay`: the number shown in the
`"+x more"` indicator, `0` when no indicator is rendered. -/
def overflowCount (expandCalendarDays : Bool)
    (events : List CalendarEvent) : Nat :=
  if expandCalendarDays then 0
  else if events.length > 2 then events.length - 2
  else 0

/-- The overflow indicator of `renderCalendarDay`:
`events.length > 2 ? <div>+${events.length - 2} more</div> : ''` in the
collapsed branch, nothing in the expanded branch. -/
def overflowIndicator (expandCalendarDays : Bool)
    (events : List CalendarEvent) : Option String :=
  if expandCalendarDays then none
  else if events.length > 2 then
    some ("+" ++ toString (events.length - 2) ++ " more")
  else none

/-! ### A reference-level model of the bucket object (for the frame claim)

`groupEventsByDate` allocates fresh arrays (`grouped[dateKey] = []`), pushes
event references into them and sorts them in place; the input `events` array
is only read.  To state that, the arrays live in an explicit store and the
function takes its input as a reference into that store. -/

/-- Array read `arr[r]` from a store of arrays (out-of-range reads yield
`[]`; unreachable in the modelled code). -/
def readList : List (List CalendarEvent) → Nat → List CalendarEvent
  | [], _ => []
  | a :: _, 0 => a
  | _ :: rest, n + 1 => readList rest n

/-- In-place update `arr[r] = v` of one array in the store (out-of-range
writes are dropped; unreachable in the modelled code, which only writes to
references it allocated). -/
def writeList : List (List CalendarEvent) → Nat →
    List CalendarEvent → List (List CalendarEvent)
  | [], _, _ => []
  | _ :: rest, 0, v => v :: rest
  | a :: rest, n + 1, v => a :: writeList rest n v

/-- A heap of event arrays; a reference is an index into it. -/
structure EventStore where
  arrays : List (List CalendarEvent)
deriving Repr, DecidableEq

/-- Dereference an array. -/
def EventStore.read (st : EventStore) (r : Nat) : List CalendarEvent :=
  readList st.arrays r

/-- `grouped[dateKey] = []`: allocate a fresh empty array, returning its
reference. -/
def EventStore.alloc (st : EventStore) : EventStore × Nat :=
  (⟨st.arrays ++ [[]]⟩, st.arrays.length)

/-- `arr.push(event)` on the array behind a reference. -/
def EventStore.push (st : EventStore) (r : Nat) (ev : CalendarEvent) :
    EventStore :=
  ⟨writeList st.arrays r (readList st.arrays r ++ [ev])⟩

/-- `arr.sort(...)` in place on the array behind a reference. -/
def EventStore.sortAt (st : EventStore) (r : Nat) : EventStore :=
  ⟨writeList st.arrays r (sortEvents (readList st.arrays r))⟩

/-- `grouped[dateKey]` as a reference lookup in the bucket object. -/
def lookupRef : List (Int × Nat) → Int → Option Nat
  | [], _ => none
  | (k, r) :: rest, d => if k = d then some r else lookupRef rest d

/-- `if (!grouped[dateKey]) grouped[dateKey] = []; grouped[dateKey].push(event)`
at the reference level: push onto the existing array, or allocate a fresh one
first. -/
def addToBucketRef (st : EventStore) (g : List (Int × Nat)) (key : Int)
    (ev : CalendarEvent) : EventStore × List (Int × Nat) :=
  match lookupRef g key with
  | some r => (st.push r ev, g)
  | none =>
    let a := st.alloc
    (a.1.push a.2 ev, g ++ [(key, a.2)])

/-- `groupEventsByDate` at the reference level: the input event array is
passed as a reference `inputRef` into the store and is only ever read; every
bucket array is freshly allocated, filled by `push` and sorted in place. -/
def groupEventsByDateRef (st : EventStore) (inputRef : Nat) (now : Int) :
    EventStore × List (Int × Nat) :=
  let events := st.read inputRef
  let today := 1440 * civilDay now
  let acc := events.foldl
    (fun acc ev => (eventDays ev today).foldl
      (fun acc k => addToBucketRef acc.1 acc.2 k ev) acc)
    (st, [])
  (acc.2.foldl (fun stc p => stc.sortAt p.2) acc.1, acc.2)

/-! ### TimeUtils.getDateKey / TimeUtils.parseDateKey

`getDateKey` renders the local civil date of a `Date` as
`getFullYear() + '-' + String(getMonth() + 1).padStart(2, '0') + '-' +
String(getDate()).padStart(2, '0')`; `parseDateKey` splits on `'-'` and
rebuilds via `new Date(Number(year), Number(month) - 1, Number(day))`.  A
`Date`'s local civil coordinates are modelled directly as the triple
(full year, 1-based month, day of month). -/

/-- The local civil coordinates of a valid `Date`: `year` is `getFullYear()`,
`month` is `getMonth() + 1` (1-based), `day` is `getDate()`. -/
structure JSCivilDate where
  year  : Int
  month : Int
  day   : Int
deriving Repr, DecidableEq

/-- Little-endian decimal digits of `n`; the fuel only makes the recursion
structural and is always sufficient when `fuel ≥ n`. -/
def toDigitsRev : Nat → Nat → List Nat
  | 0, _ => []
  | fuel + 1, n => if n = 0 then [] else n % 10 :: toDigitsRev fuel (n / 10)

/-- JavaScript `String(n)` for `n : Nat`: its decimal digit characters
(`"0"` for zero). -/
def natChars (n : Nat) : List Char :=
  if n = 0 then ['0'] else (toDigitsRev n n).reverse.map Nat.digitChar

/-- JavaScript `String(i)` for an integer: a leading `'-'` for negatives. -/
def jsIntChars (i : Int) : List Char :=
  if i < 0 then '-' :: natChars (-i).toNat else natChars i.toNat

/-- `String(i).padStart(2, '0')`. -/
def padTwoChars (i : Int) : List Char :=
  if (jsIntChars i).length < 2 then '0' :: jsIntChars i else jsIntChars i

/-- `TimeUtils.getDateKey` (TimeUtils.js lines 141-145). -/
def getDateKey (d : JSCivilDate) : String :=
  String.mk (jsIntChars d.year ++
    '-' :: (padTwoChars d.month ++ '-' :: padTwoChars d.day))

/-- Numeric value of a decimal digit character. -/
def charVal (c : Char) : Nat := c.toNat - '0'.toNat

/-- Value of a string of decimal digit characters. -/
def charsToNat (cs : List Char) : Nat :=
  cs.foldl (fun a c => 10 * a + charVal c) 0

/-- JavaScript `Number(s)` on the strings reachable from `split('-')` pieces
of date keys: `Number('')` is `0`, a plain string of decimal digits is its
value, anything else is NaN (`none`).  (Signs, blanks, decimal points never
reach this conversion here.) -/
def jsNumber (cs : List Char) : Option Int :=
  if cs.isEmpty then some 0
  else if cs.all (fun c => c.isDigit) then some (charsToNat cs : Int)
  else none

/-- JavaScript `s.split('-')`: pieces between separator occurrences, with
empty pieces for leading/adjacent separators and `[""]` for the empty
string. -/
def splitDash : List Char → List (List Char)
  | [] => [[]]
  | c :: rest =>
    if c = '-' then [] :: splitDash rest
    else
      match splitDash rest with
      | [] => [[c]]
      | piece :: pieces => (c :: piece) :: pieces

/-- Gregorian leap-year rule (as used by ECMAScript's proleptic calendar). -/
def isLeapYear (y : Int) : Bool :=
  (y % 4 = 0 && y % 100 ≠ 0) || y % 400 = 0

/-- Length of a month, for stating which civil triples are real `Date`s. -/
def daysInMonth (y m : Int) : Int :=
  if m = 2 then (if isLeapYear y then 29 else 28)
  else if m = 4 ∨ m = 6 ∨ m = 9 ∨ m = 11 then 30
  else 31

/-- The `new Date(year, monthIndex, day)` constructor on numeric arguments
(ECMA-262 `MakeDay`/`MakeFullYear` at civil-date level): a NaN argument gives
an Invalid Date; a year argument between 0 and 99 means `1900 + year`; month
overflow rolls into the year (`floor(monthIndex / 12)` years, month
`monthIndex mod 12`).  Day-of-month overflow normalization (rolling excess
days into later months) is elided: every use in this file satisfies
`1 ≤ day ≤ daysInMonth year month`, where it is the identity. -/
def mkJSDate : Option Int → Option Int → Option Int → Option JSCivilDate
  | some y, some mIdx, some d =>
    let yr := if 0 ≤ y ∧ y ≤ 99 then y + 1900 else y
    some { year := yr + mIdx / 12, month := mIdx % 12 + 1, day := d }
  | _, _, _ => none

/-- `TimeUtils.parseDateKey` (TimeUtils.js lines 158-161): destructure
`dateKey.split('-')` into `[year, month, day]` (a missing piece is
`undefined`, and `Number(undefined)` is NaN) and build
`new Date(Number(year), Number(month) - 1, Number(day))`. -/
def parseDateKey (s : String) : Option JSCivilDate :=
  match splitDash s.data with
  | y :: m :: d :: _ =>
    mkJSDate (jsNumber y) ((jsNumber m).map (fun x => x - 1)) (jsNumber d)
  | [y, m] => mkJSDate (jsNumber y) ((jsNumber m).map (fun x => x - 1)) none
  | [y] => mkJSDate (jsNumber y) none none
  | [] => mkJSDate none none none

/-! ### Concrete fixture events

Civil day numbers (days since 1970-01-01): 2024-01-14 = 19736,
2024-01-15 = 19737, 2024-01-16 = 19738, 2024-01-19 = 19741,
2024-01-20 = 19742, 2024-01-21 = 19743, 2024-01-22 = 19744.
The clock instant `28421280 = 19737 * 1440` is 2024-01-15T00:00 local. -/

/-- Scenario A's event: 2024-01-15, 10:00-10:30. -/
def standupEvent : CalendarEvent :=
  { summary := "Standup", location := none
    start := { dateTime := some 28421880, date := none }
    «end» := { dateTime := some 28421910, date := none } }

/-- A second 2024-01-15 event, 12:30-14:00. -/
def lunchEvent : CalendarEvent :=
  { summary := "Lunch with Client", location := some "Downtown Restaurant"
    start := { dateTime := some 28422030, date := none }
    «end» := { dateTime := some 28422120, date := none } }

/-- A timed event from 2024-01-15T10:00 to 2024-01-16T09:00: its end's
time of day (09:00) is earlier than its start's (10:00). -/
def overnightEvent : CalendarEvent :=
  { summary := "Overnight shift", location := none
    start := { dateTime := some 28421880, date := none }
    «end» := { dateTime := some 28423260, date := none } }

/-- The sample "Weekend Trip": 2024-01-20T08:00 to 2024-01-21T18:00. -/
def weekendTripEvent : CalendarEvent :=
  { summary := "Weekend Trip", location := some "Mountain Resort"
    start := { dateTime := some 28428960, date := none }
    «end» := { dateTime := some 28431000, date := none } }

/-- A timed event from 2024-01-15T10:00 ending exactly at local midnight
2024-01-16T00:00. -/
def midnightEndEvent : CalendarEvent :=
  { summary := "Ends at midnight", location := none
    start := { dateTime := some 28421880, date := none }
    «end» := { dateTime := some 28422720, date := none } }

/-- The sample all-day event of `generateSampleEvents` (CalendarService.js
lines 153-158): `start.date` and `end.date` both 2024-01-19. -/
def conferenceEvent : CalendarEvent :=
  { summary := "All Day Event - Conference", location := some "Convention Center"
    start := { dateTime := none, date := some 19741 }
    «end» := { dateTime := none, date := some 19741 } }

/-- The same conference following the exclusive-end convention: an all-day
event on just 2024-01-19, `end.date` = 2024-01-20. -/
def conferenceFixedEvent : CalendarEvent :=
  { summary := "All Day Event - Conference", location := some "Convention Center"
    start := { dateTime := none, date := some 19741 }
    «end» := { dateTime := none, date := some 19742 } }

/-- A multi-day all-day event: 2024-01-20 through 2024-01-21 (exclusive
`end.date` 2024-01-22). -/
def tripAllDayEvent : CalendarEvent :=
  { summary := "Long weekend", location := none
    start := { dateTime := none, date := some 19742 }
    «end» := { dateTime := none, date := some 19744 } }

/-- A single-day timed event on 2024-01-14 (the day before `today` in the
fixtures): 10:00-10:30. -/
def yesterdayEvent : CalendarEvent :=
  { summary := "Yesterday only", location := none
    start := { dateTime := some 28420440, date := none }
    «end» := { dateTime := some 28420470, date := none } }

/-- An out-of-contract event: `start` carries neither `dateTime` nor
`date`. -/
def malformedEvent : CalendarEvent :=
  { summary := "Malformed", location := none
    start := { dateTime := none, date := none }
    «end» := { dateTime := some 28421910, date := none } }

/-! ### Characterization of the day loop -/

/-- Membership in the day-loop output, for any sufficient fuel: the keys are
the civil days of `current + 1440 * k` for the iterations `k` that pass both
the loop condition and the `today` filter. -/
theorem mem_collectDaysAux (fuel : Nat) (current endTs today d : Int)
    (hfuel : endTs + 1440 - current ≤ 1440 * fuel) :
    d ∈ collectDaysAux fuel current endTs today ↔
      ∃ k : Nat, current + 1440 * k ≤ endTs ∧ today ≤ current + 1440 * k ∧
        d = civilDay (current + 1440 * k) := by
  induction fuel generalizing current with
  | zero =>
    simp only [collectDaysAux, List.not_mem_nil, false_iff]
    rintro ⟨k, hk, -, -⟩
    have : (0 : Int) ≤ 1440 * k := by positivity
    omega
  | succ n ih =>
    simp only [collectDaysAux]
    by_cases hle : current ≤ endTs
    · simp only [if_pos hle, List.mem_append]
      rw [ih (current + 1440) (by omega)]
      constructor
      · rintro (h1 | ⟨k, hk1, hk2, hk3⟩)
        · have htoday : today ≤ current := by
            by_contra h
            simp [show ¬ today ≤ current by omega] at h1
          simp only [if_pos htoday, List.mem_singleton] at h1
          exact ⟨0, by omega, by omega, by simpa using h1⟩
        · exact ⟨k + 1, by push_cast at hk1 ⊢; omega,
            by push_cast at hk2 ⊢; omega,
            by rw [hk3]; congr 1; push_cast; ring⟩
      · rintro ⟨k, hk1, hk2, hk3⟩
        cases k with
        | zero =>
          left
          simp only [Nat.cast_zero, mul_zero, add_zero] at hk1 hk2 hk3
          simp [if_pos hk2, hk3]
        | succ m =>
          right
          exact ⟨m, by push_cast at hk1 ⊢; omega, by push_cast at hk2 ⊢; omega,
            by rw [hk3]; congr 1; push_cast; ring⟩
    · simp only [if_neg hle, List.not_mem_nil, false_iff]
      rintro ⟨k, hk, -, -⟩
      have : (0 : Int) ≤ 1440 * k := by positivity
      omega

/-- The fuel chosen by `collectDays` is always sufficient. -/
theorem mem_collectDays (startTs endTs today d : Int) :
    d ∈ collectDays startTs endTs today ↔
      ∃ k : Nat, startTs + 1440 * k ≤ endTs ∧ today ≤ startTs + 1440 * k ∧
        d = civilDay (startTs + 1440 * k) := by
  refine mem_collectDaysAux _ _ _ _ _ ?_
  omega

/-- Closed form of the day loop when the `today` filter instant is a local
midnight `1440 * T` (as it always is in `groupEventsByDate`): the collected
keys form the integer interval from `max (civilDay startTs) T` to
`civilDay startTs + (endTs - startTs) / 1440`. -/
theorem mem_collectDays_midnight (startTs endTs T d : Int) :
    d ∈ collectDays startTs endTs (1440 * T) ↔
      (civilDay startTs ≤ d ∧ T ≤ d ∧
        d ≤ civilDay startTs + (endTs - startTs) / 1440) := by
  rw [mem_collectDays]
  unfold civilDay
  constructor
  · rintro ⟨k, hk1, hk2, hk3⟩
    omega
  · rintro ⟨h1, h2, h3⟩
    refine ⟨(d - startTs / 1440).toNat, by omega, by omega, by omega⟩

/-! ### Characterization of bucket reads through the fold -/

/-- Effect of one `push` on a later bucket read. -/
theorem getBucket_addToBucket (g : List (Int × List CalendarEvent))
    (key : Int) (ev : CalendarEvent) (d : Int) :
    getBucket (addToBucket g key ev) d =
      if key = d then getBucket g d ++ [ev] else getBucket g d := by
  induction g with
  | nil =>
    by_cases h : key = d <;> simp [addToBucket, getBucket, h]
  | cons p rest ih =>
    obtain ⟨k, evs⟩ := p
    by_cases hk : k = key
    · subst hk
      by_cases hd : k = d
      · subst hd
        simp [addToBucket, getBucket]
      · simp [addToBucket, getBucket, hd]
    · by_cases hd : k = d
      · subst hd
        simp [addToBucket, getBucket, hk, Ne.symm hk]
      · simp [addToBucket, getBucket, hk, hd, ih]

/-- Membership in a bucket after pushing one event along a key list. -/
theorem mem_getBucket_foldKeys (keys : List Int)
    (g : List (Int × List CalendarEvent)) (ev x : CalendarEvent) (d : Int) :
    x ∈ getBucket (keys.foldl (fun g k => addToBucket g k ev) g) d ↔
      x ∈ getBucket g d ∨ (x = ev ∧ d ∈ keys) := by
  induction keys generalizing g with
  | nil => simp
  | cons k ks ih =>
    simp only [List.foldl_cons, ih, getBucket_addToBucket, List.mem_cons]
    by_cases hk : k = d
    · subst hk
      rw [if_pos rfl]
      simp only [List.mem_append, List.mem_singleton]
      tauto
    · simp only [if_neg hk]
      constructor
      · rintro (h | h)
        · tauto
        · tauto
      · rintro (h | ⟨hx, (hd | hd)⟩)
        · tauto
        · exact absurd hd.symm hk
        · tauto

/-- Membership in a bucket after processing a whole event list. -/
theorem mem_getBucket_foldEvents (events : List CalendarEvent)
    (g : List (Int × List CalendarEvent)) (today : Int) (x : CalendarEvent)
    (d : Int) :
    x ∈ getBucket (events.foldl
        (fun g ev => (eventDays ev today).foldl
          (fun g k => addToBucket g k ev) g) g) d ↔
      x ∈ getBucket g d ∨ (x ∈ events ∧ d ∈ eventDays x today) := by
  induction events generalizing g with
  | nil => simp
  | cons ev evs ih =>
    simp only [List.foldl_cons, ih, mem_getBucket_foldKeys, List.mem_cons]
    constructor
    · rintro ((h | ⟨rfl, h⟩) | ⟨h1, h2⟩) <;> tauto
    · rintro (h | ⟨(rfl | h1), h2⟩) <;> tauto

/-! ### The sorting pass -/

/-- Insertion keeps exactly the old events plus the new one. -/
theorem mem_insertByStart (ev x : CalendarEvent) (l : List CalendarEvent) :
    x ∈ insertByStart ev l ↔ x = ev ∨ x ∈ l := by
  induction l with
  | nil => simp [insertByStart]
  | cons y ys ih =>
    simp only [insertByStart]
    by_cases h : sortKey ev ≤ sortKey y
    · simp [if_pos h]
    · simp only [if_neg h, List.mem_cons, ih]
      tauto

/-- Sorting keeps exactly the same events. -/
theorem mem_sortEvents (x : CalendarEvent) (l : List CalendarEvent) :
    x ∈ sortEvents l ↔ x ∈ l := by
  induction l with
  | nil => simp [sortEvents]
  | cons y ys ih => simp [sortEvents, mem_insertByStart, ih]

/-- Insertion into a list sorted by `sortKey` stays sorted. -/
theorem pairwise_insertByStart (ev : CalendarEvent) (l : List CalendarEvent)
    (h : l.Pairwise (fun a b => sortKey a ≤ sortKey b)) :
    (insertByStart ev l).Pairwise (fun a b => sortKey a ≤ sortKey b) := by
  induction l with
  | nil => simp [insertByStart]
  | cons y ys ih =>
    rw [List.pairwise_cons] at h
    simp only [insertByStart]
    by_cases hle : sortKey ev ≤ sortKey y
    · rw [if_pos hle, List.pairwise_cons]
      refine ⟨?_, List.pairwise_cons.mpr h⟩
      intro a ha
      rcases List.mem_cons.mp ha with rfl | ha
      · exact hle
      · exact le_trans hle (h.1 a ha)
    · rw [if_neg hle, List.pairwise_cons]
      refine ⟨?_, ih h.2⟩
      intro a ha
      rcases (mem_insertByStart ev a ys).mp ha with rfl | ha
      · omega
      · exact h.1 a ha

/-- The output of the per-bucket sort is sorted by effective start. -/
theorem pairwise_sortEvents (l : List CalendarEvent) :
    (sortEvents l).Pairwise (fun a b => sortKey a ≤ sortKey b) := by
  induction l with
  | nil => simp [sortEvents]
  | cons y ys ih => exact pairwise_insertByStart y (sortEvents ys) ih

/-- Reading a bucket after the final sorting map. -/
theorem getBucket_map_sort (g : List (Int × List CalendarEvent)) (d : Int) :
    getBucket (g.map (fun p => (p.1, sortEvents p.2))) d =
      sortEvents (getBucket g d) := by
  induction g with
  | nil => simp [getBucket, sortEvents]
  | cons p rest ih =>
    by_cases h : p.1 = d
    · simp [getBucket, h]
    · simp [getBucket, h, ih]

/-! ### Main membership characterization -/

/-- An event is in the bucket of day `d` exactly when it occurs in the input
and its day loop emits `d`. -/
theorem mem_getBucket_groupEventsByDate (events : List CalendarEvent)
    (now : Int) (x : CalendarEvent) (d : Int) :
    x ∈ getBucket (groupEventsByDate events now) d ↔
      x ∈ events ∧ d ∈ eventDays x (1440 * civilDay now) := by
  unfold groupEventsByDate
  rw [getBucket_map_sort, mem_sortEvents, mem_getBucket_foldEvents]
  simp [getBucket]

/-! ### eventDays helpers -/

/-- Membership in the day list of an event with valid parsed start and
(adjusted) end. -/
theorem mem_eventDays_valid (ev : CalendarEvent) (s e T d : Int)
    (hs : parseEventTime ev.start = some s)
    (he : adjustedEnd ev = some e) :
    d ∈ eventDays ev (1440 * T) ↔
      (civilDay s ≤ d ∧ T ≤ d ∧ d ≤ civilDay s + (e - s) / 1440) := by
  unfold eventDays
  rw [hs, he]
  exact mem_collectDays_midnight s e T d

/-- An event with an Invalid parsed start contributes no day. -/
theorem eventDays_invalid_start (ev : CalendarEvent) (t : Int)
    (hs : parseEventTime ev.start = none) :
    eventDays ev t = [] := by
  unfold eventDays
  rw [hs]

/-- An event with an Invalid adjusted end contributes no day. -/
theorem eventDays_invalid_end (ev : CalendarEvent) (t : Int)
    (he : adjustedEnd ev = none) :
    eventDays ev t = [] := by
  unfold eventDays
  rw [he]
  rcases parseEventTime ev.start with _ | s <;> rfl

/-- Every emitted day passes the `today` filter. -/
theorem mem_eventDays_today_le (ev : CalendarEvent) (T d : Int)
    (h : d ∈ eventDays ev (1440 * T)) : T ≤ d := by
  rcases hs : parseEventTime ev.start with _ | s
  · rw [eventDays_invalid_start ev _ hs] at h
    simp at h
  · rcases he : adjustedEnd ev with _ | e
    · rw [eventDays_invalid_end ev _ he] at h
      simp at h
    · rw [mem_eventDays_valid ev s e T d hs he] at h
      exact h.2.1

/-- Every bucketed event has a valid parsed start. -/
theorem mem_eventDays_isSome_start (ev : CalendarEvent) (t d : Int)
    (h : d ∈ eventDays ev t) : (parseEventTime ev.start).isSome := by
  rcases hs : parseEventTime ev.start with _ | s
  · rw [eventDays_invalid_start ev _ hs] at h
    simp at h
  · rfl

/-! ### Key predicates through the folds (for the no-past-days claim) -/

/-- `addToBucket` only adds the pushed key. -/
theorem forall_keys_addToBucket (P : Int → Prop)
    (g : List (Int × List CalendarEvent)) (k : Int) (ev : CalendarEvent)
    (hg : ∀ p ∈ g, P p.1) (hk : P k) :
    ∀ p ∈ addToBucket g k ev, P p.1 := by
  induction g with
  | nil =>
    intro p hp
    simp only [addToBucket, List.mem_singleton] at hp
    subst hp
    exact hk
  | cons q rest ih =>
    obtain ⟨k', evs⟩ := q
    intro p hp
    simp only [addToBucket] at hp
    by_cases h : k' = k
    · rw [if_pos h] at hp
      rcases List.mem_cons.mp hp with rfl | hp
      · exact hg (k', evs) (List.mem_cons_self _ _)
      · exact hg p (List.mem_cons_of_mem _ hp)
    · rw [if_neg h] at hp
      rcases List.mem_cons.mp hp with rfl | hp
      · exact hg (k', evs) (List.mem_cons_self _ _)
      · exact ih (fun p hp => hg p (List.mem_cons_of_mem _ hp)) p hp

/-- Pushing one event along a key list only adds keys from that list. -/
theorem forall_keys_foldKeys (P : Int → Prop) (keys : List Int)
    (g : List (Int × List CalendarEvent)) (ev : CalendarEvent)
    (hg : ∀ p ∈ g, P p.1) (hks : ∀ k ∈ keys, P k) :
    ∀ p ∈ keys.foldl (fun g k => addToBucket g k ev) g, P p.1 := by
  induction keys generalizing g with
  | nil => exact hg
  | cons k ks ih =>
    simp only [List.foldl_cons]
    refine ih (addToBucket g k ev)
      (forall_keys_addToBucket P g k ev hg (hks k (List.mem_cons_self _ _))) ?_
    intro k' hk'
    exact hks k' (List.mem_cons_of_mem _ hk')

/-- Processing a whole event list only adds keys from the events' day
lists. -/
theorem forall_keys_foldEvents (P : Int → Prop)
    (events : List CalendarEvent) (g : List (Int × List CalendarEvent))
    (today : Int) (hg : ∀ p ∈ g, P p.1)
    (hev : ∀ ev ∈ events, ∀ k ∈ eventDays ev today, P k) :
    ∀ p ∈ events.foldl
      (fun g ev => (eventDays ev today).foldl
        (fun g k => addToBucket g k ev) g) g, P p.1 := by
  induction events generalizing g with
  | nil => exact hg
  | cons ev evs ih =>
    simp only [List.foldl_cons]
    refine ih _ ?_ ?_
    · exact forall_keys_foldKeys P (eventDays ev today) g ev hg
        (hev ev (List.mem_cons_self _ _))
    · intro ev' hev' k hk
      exact hev ev' (List.mem_cons_of_mem _ hev') k hk

/-- Every key of the returned bucket map satisfies any predicate holding on
all emitted days. -/
theorem forall_keys_groupEventsByDate (P : Int → Prop)
    (events : List CalendarEvent) (now : Int)
    (hev : ∀ ev ∈ events, ∀ k ∈ eventDays ev (1440 * civilDay now), P k) :
    ∀ p ∈ groupEventsByDate events now, P p.1 := by
  unfold groupEventsByDate
  intro p hp
  rcases List.mem_map.mp hp with ⟨q, hq, rfl⟩
  exact forall_keys_foldEvents P events [] (1440 * civilDay now)
    (by intro p hp; simp at hp) hev q hq

/-! ### Claim theorems: bucketing -/

/-- C1 counterexample: the timed event from 2024-01-15T10:00 to
2024-01-16T09:00 has start civil day d0 = 19737 and (unadjusted, timed) end
civil day d1 = 19738 with d0 ≤ d1, and with `now` = 2024-01-15T00:00 the
inclusion floor is today = 19737 ≤ d0; the claim then requires the event in
the buckets of both 19737 and 19738, but `groupEventsByDate` never places it
in bucket 19738: the loop steps `currentDate` from 10:00 by whole days and
`2024-01-16T10:00 <= 2024-01-16T09:00` fails, so the last civil day of the
span is skipped. -/
theorem groupEventsByDate_span_claim_counterexample :
    parseEventTime overnightEvent.start = some 28421880 ∧
    adjustedEnd overnightEvent = some 28423260 ∧
    civilDay 28421880 = 19737 ∧ civilDay 28423260 = 19738 ∧
    civilDay 28421280 = 19737 ∧
    overnightEvent ∈
      getBucket (groupEventsByDate [overnightEvent] 28421280) 19737 ∧
    overnightEvent ∉
      getBucket (groupEventsByDate [overnightEvent] 28421280) 19738 := by
  decide

/-- C1 (amended): for an event whose parsed start is `s` and whose adjusted
end is `e`, `groupEventsByDate` places it in the bucket of every civil day in
`[max(d0, today), dlast]` and in no other bucket, where `d0 = civilDay s` and
`dlast = d0 + ⌊(e - s) / oneDay⌋` — not the claim's adjusted-end civil day
`d1 = civilDay e`.  The two agree (`dlast = d1`) whenever the end's time of
day is at least the start's (in particular for all all-day events, whose
adjusted ends are midnights like their starts), but `dlast = d1 - 1` when the
end's time of day is strictly earlier than the start's, and the span is empty
when `e < s`. -/
theorem groupEventsByDate_span_coverage
    (events : List CalendarEvent) (now : Int) (ev : CalendarEvent)
    (s e : Int) (hmem : ev ∈ events)
    (hs : parseEventTime ev.start = some s)
    (he : adjustedEnd ev = some e) :
    (∀ d : Int, ev ∈ getBucket (groupEventsByDate events now) d ↔
      (civilDay s ≤ d ∧ civilDay now ≤ d ∧
        d ≤ civilDay s + (e - s) / 1440)) ∧
    (civilDay s + (e - s) / 1440 =
      if e % 1440 < s % 1440 then civilDay e - 1 else civilDay e) := by
  constructor
  · intro d
    rw [mem_getBucket_groupEventsByDate,
      mem_eventDays_valid ev s e (civilDay now) d hs he]
    constructor
    · rintro ⟨-, h⟩
      exact h
    · intro h
      exact ⟨hmem, h⟩
  · unfold civilDay
    split_ifs <;> omega

/-- Witness for C1: the Weekend Trip (2024-01-20T08:00 - 2024-01-21T18:00,
end time of day after start time of day) is in the bucket of its last civil
day 19743 and not in 19744. -/
theorem groupEventsByDate_span_coverage_witness :
    weekendTripEvent ∈
      getBucket (groupEventsByDate [weekendTripEvent] 28421280) 19743 ∧
    weekendTripEvent ∉
      getBucket (groupEventsByDate [weekendTripEvent] 28421280) 19744 := by
  have h := groupEventsByDate_span_coverage [weekendTripEvent] 28421280
    weekendTripEvent 28428960 28431000 (by decide) (by decide) (by decide)
  constructor
  · exact (h.1 19743).mpr (by unfold civilDay; omega)
  · intro hc
    have h2 := (h.1 19744).mp hc
    unfold civilDay at h2
    omega

/-- C2 counterexample: the all-day sample event with `start.date` and
`end.date` both 2024-01-19 (day 19741) is, after the exclusive-end
minus-one-day adjustment (adjusted end = midnight of 2024-01-18), an empty
span: with `now` = 2024-01-15T00:00 (today = 19737 ≤ 19741) the claim puts it
in exactly bucket 19741, but `groupEventsByDate` returns an empty map — the
event appears in no bucket at all. -/
theorem allDay_sample_event_dropped :
    conferenceEvent.start.date = some 19741 ∧
    conferenceEvent.«end».date = some 19741 ∧
    adjustedEnd conferenceEvent = some 28425600 ∧
    civilDay 28425600 = 19740 ∧
    groupEventsByDate [conferenceEvent] 28421280 = [] ∧
    getBucket (groupEventsByDate [conferenceEvent] 28421280) 19741 = [] := by
  decide

/-- C2 (amended): for every all-day event (`start.date` present),
`groupEventsByDate` does subtract one civil day from the parsed end before
iterating.  But the event `{start: {date: 2024-01-19}, end: {date:
2024-01-19}}` denotes an empty span under the exclusive-end convention (its
adjusted end, the 18th, precedes its start), so with today ≤ 2024-01-19 it
appears in no bucket at all; the event that appears in exactly the single
bucket 2024-01-19 is the correctly-encoded one with `end.date` =
2024-01-20. -/
theorem allDay_exclusiveEnd_adjustment :
    (∀ ev : CalendarEvent, ev.start.date.isSome →
      adjustedEnd ev = (parseEventTime ev.«end»).map (fun t => t - 1440)) ∧
    (∀ d : Int,
      conferenceEvent ∉
        getBucket (groupEventsByDate [conferenceEvent] 28421280) d) ∧
    (∀ d : Int,
      conferenceFixedEvent ∈
          getBucket (groupEventsByDate [conferenceFixedEvent] 28421280) d ↔
        d = 19741) := by
  refine ⟨?_, ?_, ?_⟩
  · intro ev h
    unfold adjustedEnd
    rw [if_pos h]
  · intro d hc
    rw [mem_getBucket_groupEventsByDate,
      mem_eventDays_valid conferenceEvent 28427040 28425600 (civilDay 28421280)
        d (by decide) (by decide)] at hc
    unfold civilDay at hc
    omega
  · intro d
    rw [mem_getBucket_groupEventsByDate,
      mem_eventDays_valid conferenceFixedEvent 28427040 28427040
        (civilDay 28421280) d (by decide) (by decide)]
    unfold civilDay
    constructor
    · rintro ⟨-, h⟩
      omega
    · rintro rfl
      refine ⟨by decide, by omega⟩

/-- Witness for C2: the adjustment equation at the sample event, its absence
from bucket 19741, and the corrected event's presence there. -/
theorem allDay_exclusiveEnd_adjustment_witness :
    adjustedEnd conferenceEvent =
      (parseEventTime conferenceEvent.«end»).map (fun t => t - 1440) ∧
    conferenceEvent ∉
      getBucket (groupEventsByDate [conferenceEvent] 28421280) 19741 ∧
    conferenceFixedEvent ∈
      getBucket (groupEventsByDate [conferenceFixedEvent] 28421280) 19741 := by
  refine ⟨allDay_exclusiveEnd_adjustment.1 conferenceEvent (by decide),
    allDay_exclusiveEnd_adjustment.2.1 19741,
    (allDay_exclusiveEnd_adjustment.2.2 19741).mpr rfl⟩

/-- C4: no past days.  Every key of the map returned by `groupEventsByDate`
is a civil day ≥ today (the civil day of `now`), and an event whose adjusted
span ends on a civil day before today is in no bucket at all. -/
theorem groupEventsByDate_no_past_days
    (events : List CalendarEvent) (now : Int) :
    (∀ p ∈ groupEventsByDate events now, civilDay now ≤ p.1) ∧
    (∀ ev ∈ events, ∀ e : Int, adjustedEnd ev = some e →
      civilDay e < civilDay now →
      ∀ d : Int, ev ∉ getBucket (groupEventsByDate events now) d) := by
  constructor
  · exact forall_keys_groupEventsByDate (fun k => civilDay now ≤ k) events now
      (fun ev _ k hk => mem_eventDays_today_le ev (civilDay now) k hk)
  · intro ev _ e he hlt d hc
    rw [mem_getBucket_groupEventsByDate] at hc
    rcases hs : parseEventTime ev.start with _ | s
    · rw [eventDays_invalid_start ev _ hs] at hc
      simp at hc
    · rw [mem_eventDays_valid ev s e (civilDay now) d hs he] at hc
      unfold civilDay at hc hlt
      omega

/-- Witness for C4: with `now` = 2024-01-15T00:00, the key 19737 of the map
for [standupEvent, yesterdayEvent] is ≥ today, and the event lying entirely
on 2024-01-14 is absent from its own day's bucket. -/
theorem groupEventsByDate_no_past_days_witness :
    civilDay 28421280 ≤ 19737 ∧
    yesterdayEvent ∉
      getBucket (groupEventsByDate [standupEvent, yesterdayEvent] 28421280)
        19736 := by
  have h := groupEventsByDate_no_past_days [standupEvent, yesterdayEvent]
    28421280
  refine ⟨?_, ?_⟩
  · exact h.1 (19737, [standupEvent]) (by decide)
  · exact h.2 yesterdayEvent (by decide) 28420470 (by decide) (by decide)
      19736

/-- C6: within any bucket returned by `groupEventsByDate`, events are in
non-decreasing order of effective start instant (`dateTime` when present,
else the `date` civil day at local midnight — both captured by `sortKey`,
which equals that instant because every bucketed event's parsed start is
valid, as the second conjunct states). -/
theorem groupEventsByDate_buckets_sorted
    (events : List CalendarEvent) (now : Int) (d : Int) :
    (getBucket (groupEventsByDate events now) d).Pairwise
      (fun a b => sortKey a ≤ sortKey b) ∧
    (∀ ev ∈ getBucket (groupEventsByDate events now) d,
      (parseEventTime ev.start).isSome) := by
  constructor
  · unfold groupEventsByDate
    rw [getBucket_map_sort]
    exact pairwise_sortEvents _
  · intro ev hev
    rw [mem_getBucket_groupEventsByDate] at hev
    exact mem_eventDays_isSome_start ev _ d hev.2

/-- Witness for C6: the 2024-01-15 bucket of two events supplied in reverse
time order is sorted, and its first member has a valid parsed start. -/
theorem groupEventsByDate_buckets_sorted_witness :
    (getBucket (groupEventsByDate [lunchEvent, standupEvent] 28421280)
        19737).Pairwise (fun a b => sortKey a ≤ sortKey b) ∧
    (parseEventTime standupEvent.start).isSome := by
  have h := groupEventsByDate_buckets_sorted [lunchEvent, standupEvent]
    28421280 19737
  exact ⟨h.1, h.2 standupEvent (by decide)⟩

/-- C8 counterexample: for the event whose `start` has neither `dateTime` nor
`date`, `new Date(undefined)` evaluates to an Invalid Date (time value NaN)
per ECMA-262 — it does not throw — every comparison against it is false, so
the day loop never runs and `groupEventsByDate` returns normally (here: the
empty map), contradicting the claim that no bucket map is returned. -/
theorem malformed_event_no_throw_counterexample :
    malformedEvent.start.dateTime = none ∧
    malformedEvent.start.date = none ∧
    parseEventTime malformedEvent.start = none ∧
    groupEventsByDate [malformedEvent] 28421280 = [] := by
  decide

/-- C8 (amended): an event whose `start` carries neither `dateTime` nor
`date` parses to an Invalid Date; the reference implementation does not
throw — the NaN comparisons make the day loop collect nothing, the event is
silently skipped, and `groupEventsByDate` returns a bucket map in which the
malformed event appears nowhere. -/
theorem malformed_event_skipped
    (events : List CalendarEvent) (now : Int) (ev : CalendarEvent)
    (h : parseEventTime ev.start = none) :
    ∀ d : Int, ev ∉ getBucket (groupEventsByDate events now) d := by
  intro d hc
  rw [mem_getBucket_groupEventsByDate] at hc
  rw [eventDays_invalid_start ev _ h] at hc
  simp at hc

/-- Witness for C8 (amended): the malformed fixture is absent from the bucket
of 2024-01-15 even when listed among the inputs. -/
theorem malformed_event_skipped_witness :
    malformedEvent ∉
      getBucket (groupEventsByDate [malformedEvent, standupEvent] 28421280)
        19737 :=
  malformed_event_skipped [malformedEvent, standupEvent] 28421280
    malformedEvent (by decide) 19737

/-! ### Renderer condition helpers -/

/-- The source's first-day test `startTime >= currentDateStart && startTime <
currentDateEnd` on a valid instant decides membership of the instant's civil
day. -/
theorem firstDay_cond (t day : Int) :
    (jsLe (some (1440 * day)) (some t) &&
      jsLt (some t) (some (1440 * day + 1440))) =
      decide (civilDay t = day) := by
  simp only [jsLe, jsLt]
  rw [← Bool.decide_and, decide_eq_decide]
  unfold civilDay
  omega

/-- The source's timed last-day test `endTime > currentDateStart && endTime
<= currentDateEnd` decides membership of the civil day of the instant one
minute before the end. -/
theorem lastDay_cond (e day : Int) :
    (jsLt (some (1440 * day)) (some e) &&
      jsLe (some e) (some (1440 * day + 1440))) =
      decide (civilDay (e - 1) = day) := by
  simp only [jsLe, jsLt]
  rw [← Bool.decide_and, decide_eq_decide]
  unfold civilDay
  omega

/-- Midnight of day `a` lies on civil day `a`. -/
theorem civilDay_midnight (a : Int) : civilDay (1440 * a) = a := by
  unfold civilDay
  omega

/-- The adjusted end of an all-day event with `end.date = b` is midnight of
day `b - 1`. -/
theorem civilDay_adjusted_midnight (b : Int) :
    civilDay (1440 * b - 1440) = b - 1 := by
  unfold civilDay
  omega

/-! ### Claim theorems: renderers -/

/-- C3 counterexample: the timed event from 2024-01-15T10:00 ending exactly
at local midnight 2024-01-16T00:00, rendered on 2024-01-15.  That day is the
event's first day and *not* its end civil day (the end instant lies on
2024-01-16), so the claimed state machine requires the label
`"10:00 AM - ..."`; the code instead treats the day as both first and last
(its last-day test is `endTime > dayStart && endTime <= dayEnd`) and renders
the full range `"10:00 AM - 12:00 AM"`. -/
theorem renderEvent_timed_midnight_counterexample :
    midnightEndEvent.start.dateTime = some 28421880 ∧
    parseEventTime midnightEndEvent.«end» = some 28422720 ∧
    civilDay 28421880 = 19737 ∧
    civilDay 28422720 = 19738 ∧
    midnightEndEvent ∈
      getBucket (groupEventsByDate [midnightEndEvent] 28421280) 19737 ∧
    renderEventTimeString midnightEndEvent 19737 = "10:00 AM - 12:00 AM" ∧
    "10:00 AM - 12:00 AM" ≠ "10:00 AM - ..." := by
  decide

/-- C3 (amended): for a timed event with start instant `s` and end instant
`e`, the rendered label follows the claimed four-state table where the day
is the event's *first day* iff it is the civil day of `s`, and the event's
*last day* iff it is the civil day of `e - 1` (the last instant before the
end) — i.e. an event ending exactly at local midnight counts the preceding
day as its last day, not the end instant's civil day as the claim stated. -/
theorem renderEvent_timed_label_table (ev : CalendarEvent) (s e day : Int)
    (h1 : ev.start.dateTime = some s) (h2 : ev.start.date = none)
    (h3 : parseEventTime ev.«end» = some e) :
    renderEventTimeString ev day =
      if civilDay s = day then
        (if civilDay (e - 1) = day then
          formatTimeOfDay s ++ " - " ++ formatTimeOfDay e
        else formatTimeOfDay s ++ " - ...")
      else if civilDay (e - 1) = day then "... - " ++ formatTimeOfDay e
      else "All day" := by
  have hps : parseEventTime ev.start = some s := by
    unfold parseEventTime
    rw [h1]
  have hae : adjustedEnd ev = some e := by
    unfold adjustedEnd
    rw [h2]
    simpa using h3
  simp only [renderEventTimeString, hps, hae, h1, Option.isSome_some,
    if_true, firstDay_cond, lastDay_cond, jsFormatTime]
  by_cases hF : civilDay s = day <;> by_cases hL : civilDay (e - 1) = day <;>
    simp [hF, hL]

/-- Witness for C3: Scenario A's standup (2024-01-15, 10:00-10:30) rendered
on its own single day gets the full range label. -/
theorem renderEvent_timed_label_table_witness :
    renderEventTimeString standupEvent 19737 = "10:00 AM - 10:30 AM" := by
  have h := renderEvent_timed_label_table standupEvent 28421880 28421910
    19737 (by decide) (by decide) (by decide)
  rw [h]
  decide

/-- C7: per-view all-day labels.  The compact grid-day renderer labels every
all-day event "All day" on every day; the agenda renderer labels a multi-day
all-day event (start day `a`, exclusive `end.date` `b`, last day `b - 1`,
multi-day meaning `a < b - 1`) "All day (starts)" on its first day,
"All day (ends)" on its last day, and "All day" on middle days and on the
single day of a single-day event. -/
theorem allDay_label_per_view (ev : CalendarEvent) (a b : Int)
    (h1 : ev.start.dateTime = none) (h2 : ev.start.date = some a)
    (h3 : ev.«end».dateTime = none) (h4 : ev.«end».date = some b) :
    (∀ day : Int, renderCalendarEventTimeString ev day = "All day") ∧
    (a < b - 1 → renderEventTimeString ev a = "All day (starts)" ∧
      renderEventTimeString ev (b - 1) = "All day (ends)") ∧
    (∀ day : Int, a < day → day < b - 1 →
      renderEventTimeString ev day = "All day") ∧
    (a = b - 1 → renderEventTimeString ev a = "All day") := by
  have hps : parseEventTime ev.start = some (1440 * a) := by
    unfold parseEventTime
    rw [h1, h2]
  have hae : adjustedEnd ev = some (1440 * b - 1440) := by
    unfold adjustedEnd
    rw [h2]
    simp only [Option.isSome_some, if_true]
    unfold parseEventTime
    rw [h3, h4]
    rfl
  refine ⟨?_, ?_, ?_, ?_⟩
  · intro day
    simp [renderCalendarEventTimeString, h1]
  · intro hab
    constructor
    · simp only [renderEventTimeString, hps, hae, h1, Option.isSome_none,
        Bool.false_eq_true, if_false, firstDay_cond, civilDay_midnight,
        civilDay_adjusted_midnight]
      have hne : ¬ (b - 1 = a) := by omega
      simp [hne]
    · simp only [renderEventTimeString, hps, hae, h1, Option.isSome_none,
        Bool.false_eq_true, if_false, firstDay_cond, civilDay_midnight,
        civilDay_adjusted_midnight]
      have hne : ¬ (a = b - 1) := by omega
      simp [hne]
  · intro day hda hdb
    simp only [renderEventTimeString, hps, hae, h1, Option.isSome_none,
      Bool.false_eq_true, if_false, firstDay_cond, civilDay_midnight,
      civilDay_adjusted_midnight]
    have hne1 : ¬ (a = day) := by omega
    have hne2 : ¬ (b - 1 = day) := by omega
    simp [hne1, hne2]
  · intro hab
    simp only [renderEventTimeString, hps, hae, h1, Option.isSome_none,
      Bool.false_eq_true, if_false, firstDay_cond, civilDay_midnight,
      civilDay_adjusted_midnight]
    simp [hab]

/-- Witness for C7: the multi-day all-day fixture (2024-01-20 through
2024-01-21, exclusive end 2024-01-22) gets "All day (starts)" / "All day
(ends)" in the agenda renderer and "All day" in the grid renderer. -/
theorem allDay_label_per_view_witness :
    renderEventTimeString tripAllDayEvent 19742 = "All day (starts)" ∧
    renderEventTimeString tripAllDayEvent 19743 = "All day (ends)" ∧
    renderCalendarEventTimeString tripAllDayEvent 19742 = "All day" := by
  have h := allDay_label_per_view tripAllDayEvent 19742 19744
    (by decide) (by decide) (by decide) (by decide)
  have h2 := h.2.1 (by omega)
  exact ⟨h2.1, by simpa using h2.2, h.1 19742⟩

/-- C5: overflow/visibility policy of `renderCalendarDay`.  Collapsed mode
shows the first `maxVisible = 2` events with overflow count
`max(0, len - 2)`, so shown + overflow = len whenever len ≥ 2; expand-all
shows everything with overflow 0; a zero overflow count renders no
indicator, a non-zero one renders `"+{overflowCount} more"`. -/
theorem renderCalendarDay_overflow_policy (events : List CalendarEvent) :
    (visibleEvents false events = events.take maxVisibleEvents) ∧
    ((overflowCount false events : Int) = max 0 ((events.length : Int) - 2)) ∧
    (maxVisibleEvents ≤ events.length →
      (visibleEvents false events).length + overflowCount false events =
        events.length) ∧
    (visibleEvents true events = events) ∧
    (overflowCount true events = 0) ∧
    (∀ expand : Bool, overflowIndicator expand events = none ↔
      overflowCount expand events = 0) ∧
    (∀ expand : Bool, 0 < overflowCount expand events →
      overflowIndicator expand events =
        some ("+" ++ toString (overflowCount expand events) ++ " more")) := by
  refine ⟨rfl, ?_, ?_, rfl, rfl, ?_, ?_⟩
  · simp only [overflowCount, Bool.false_eq_true, if_false]
    split_ifs with h <;> omega
  · intro hlen
    simp only [visibleEvents, overflowCount, maxVisibleEvents,
      Bool.false_eq_true, if_false, List.length_take] at *
    split_ifs with h <;> omega
  · intro expand
    cases expand <;>
      simp only [overflowIndicator, overflowCount, Bool.false_eq_true,
        if_false, if_true] <;>
      split_ifs with h <;> simp <;> omega
  · intro expand h
    cases expand
    · simp only [overflowIndicator, overflowCount, Bool.false_eq_true,
        if_false] at h ⊢
      split_ifs at h ⊢ with hgt
      · rfl
      · omega
    · simp [overflowCount] at h

/-- Witness for C5: Scenario D, five events on one day in collapsed mode:
shown + overflow = 5 and the indicator shows the overflow count. -/
theorem renderCalendarDay_overflow_policy_witness :
    (visibleEvents false
        [standupEvent, lunchEvent, standupEvent, lunchEvent,
          standupEvent]).length +
      overflowCount false
        [standupEvent, lunchEvent, standupEvent, lunchEvent, standupEvent] =
      5 ∧
    overflowIndicator false
        [standupEvent, lunchEvent, standupEvent, lunchEvent, standupEvent] =
      some ("+" ++ toString (overflowCount false
        [standupEvent, lunchEvent, standupEvent, lunchEvent, standupEvent]) ++
        " more") := by
  have h := renderCalendarDay_overflow_policy
    [standupEvent, lunchEvent, standupEvent, lunchEvent, standupEvent]
  exact ⟨h.2.2.1 (by decide), h.2.2.2.2.2.2 false (by decide)⟩

/-! ### Store lemmas (for the frame claim) -/

/-- Writing one array leaves every other slot unchanged. -/
theorem readList_writeList_ne (l : List (List CalendarEvent)) (r q : Nat)
    (v : List CalendarEvent) (h : q ≠ r) :
    readList (writeList l r v) q = readList l q := by
  induction l generalizing r q with
  | nil => rfl
  | cons a rest ih =>
    cases r with
    | zero =>
      cases q with
      | zero => exact absurd rfl h
      | succ q' => rfl
    | succ r' =>
      cases q with
      | zero => rfl
      | succ q' => exact ih r' q' (fun hc => h (by rw [hc]))

/-- Writing preserves the store size. -/
theorem writeList_length (l : List (List CalendarEvent)) (r : Nat)
    (v : List CalendarEvent) : (writeList l r v).length = l.length := by
  induction l generalizing r with
  | nil => rfl
  | cons a rest ih =>
    cases r with
    | zero => rfl
    | succ r' => simp only [writeList, List.length_cons, ih r']

/-- Allocation leaves existing slots unchanged. -/
theorem readList_append_lt (l : List (List CalendarEvent)) (q : Nat)
    (x : List CalendarEvent) (h : q < l.length) :
    readList (l ++ [x]) q = readList l q := by
  induction l generalizing q with
  | nil => simp at h
  | cons a rest ih =>
    cases q with
    | zero => rfl
    | succ q' => exact ih q' (by simpa using h)

/-- A successful bucket-object lookup returns one of its entries. -/
theorem lookupRef_mem (g : List (Int × Nat)) (k : Int) (r : Nat)
    (h : lookupRef g k = some r) : (k, r) ∈ g := by
  induction g with
  | nil => simp [lookupRef] at h
  | cons p rest ih =>
    obtain ⟨k', r'⟩ := p
    simp only [lookupRef] at h
    by_cases hk : k' = k
    · rw [if_pos hk] at h
      subst hk
      cases h
      exact List.mem_cons_self _ _
    · rw [if_neg hk] at h
      exact List.mem_cons_of_mem _ (ih h)

/-- One push step preserves the original prefix of the store, keeps the
store at least as large, and keeps every bucket reference fresh (at or above
the original size). -/
theorem addToBucketRef_frame (st0 st : EventStore) (g : List (Int × Nat))
    (k : Int) (ev : CalendarEvent)
    (hlen : st0.arrays.length ≤ st.arrays.length)
    (hread : ∀ q, q < st0.arrays.length → st.read q = st0.read q)
    (hrefs : ∀ p ∈ g, st0.arrays.length ≤ p.2) :
    st0.arrays.length ≤ (addToBucketRef st g k ev).1.arrays.length ∧
    (∀ q, q < st0.arrays.length →
      (addToBucketRef st g k ev).1.read q = st0.read q) ∧
    (∀ p ∈ (addToBucketRef st g k ev).2, st0.arrays.length ≤ p.2) := by
  unfold addToBucketRef
  rcases hl : lookupRef g k with _ | r
  · simp only
    refine ⟨?_, ?_, ?_⟩
    · simp only [EventStore.push, EventStore.alloc, writeList_length,
        List.length_append, List.length_singleton]
      omega
    · intro q hq
      simp only [EventStore.push, EventStore.alloc, EventStore.read]
      rw [readList_writeList_ne _ _ _ _ (by omega),
        readList_append_lt _ _ _ (by omega)]
      exact hread q hq
    · intro p hp
      rcases List.mem_append.mp hp with hp | hp
      · exact hrefs p hp
      · rcases List.mem_singleton.mp hp with rfl
        simpa using hlen
  · simp only
    have hr : st0.arrays.length ≤ r := hrefs (k, r) (lookupRef_mem g k r hl)
    refine ⟨?_, ?_, hrefs⟩
    · simpa [EventStore.push, writeList_length] using hlen
    · intro q hq
      simp only [EventStore.push, EventStore.read]
      rw [readList_writeList_ne _ _ _ _ (by omega)]
      exact hread q hq

/-- The key-list fold of one event preserves the frame invariant. -/
theorem foldKeysRef_frame (st0 : EventStore) (keys : List Int)
    (ev : CalendarEvent) (st : EventStore) (g : List (Int × Nat))
    (hlen : st0.arrays.length ≤ st.arrays.length)
    (hread : ∀ q, q < st0.arrays.length → st.read q = st0.read q)
    (hrefs : ∀ p ∈ g, st0.arrays.length ≤ p.2) :
    st0.arrays.length ≤
      (keys.foldl (fun acc k => addToBucketRef acc.1 acc.2 k ev)
        (st, g)).1.arrays.length ∧
    (∀ q, q < st0.arrays.length →
      (keys.foldl (fun acc k => addToBucketRef acc.1 acc.2 k ev)
        (st, g)).1.read q = st0.read q) ∧
    (∀ p ∈ (keys.foldl (fun acc k => addToBucketRef acc.1 acc.2 k ev)
        (st, g)).2, st0.arrays.length ≤ p.2) := by
  induction keys generalizing st g with
  | nil => exact ⟨hlen, hread, hrefs⟩
  | cons k ks ih =>
    simp only [List.foldl_cons]
    have h := addToBucketRef_frame st0 st g k ev hlen hread hrefs
    exact ih (addToBucketRef st g k ev).1 (addToBucketRef st g k ev).2
      h.1 h.2.1 h.2.2

/-- The event-list fold preserves the frame invariant. -/
theorem foldEventsRef_frame (st0 : EventStore)
    (events : List CalendarEvent) (today : Int) (st : EventStore)
    (g : List (Int × Nat))
    (hlen : st0.arrays.length ≤ st.arrays.length)
    (hread : ∀ q, q < st0.arrays.length → st.read q = st0.read q)
    (hrefs : ∀ p ∈ g, st0.arrays.length ≤ p.2) :
    st0.arrays.length ≤
      (events.foldl (fun acc ev => (eventDays ev today).foldl
        (fun acc k => addToBucketRef acc.1 acc.2 k ev) acc)
        (st, g)).1.arrays.length ∧
    (∀ q, q < st0.arrays.length →
      (events.foldl (fun acc ev => (eventDays ev today).foldl
        (fun acc k => addToBucketRef acc.1 acc.2 k ev) acc)
        (st, g)).1.read q = st0.read q) ∧
    (∀ p ∈ (events.foldl (fun acc ev => (eventDays ev today).foldl
        (fun acc k => addToBucketRef acc.1 acc.2 k ev) acc)
        (st, g)).2, st0.arrays.length ≤ p.2) := by
  induction events generalizing st g with
  | nil => exact ⟨hlen, hread, hrefs⟩
  | cons ev evs ih =>
    simp only [List.foldl_cons]
    have h := foldKeysRef_frame st0 (eventDays ev today) ev st g
      hlen hread hrefs
    have hsplit : ((eventDays ev today).foldl
        (fun acc k => addToBucketRef acc.1 acc.2 k ev) (st, g)) =
        (((eventDays ev today).foldl
          (fun acc k => addToBucketRef acc.1 acc.2 k ev) (st, g)).1,
         ((eventDays ev today).foldl
          (fun acc k => addToBucketRef acc.1 acc.2 k ev) (st, g)).2) := rfl
    rw [hsplit]
    exact ih _ _ h.1 h.2.1 h.2.2

/-- The in-place sorting pass touches only fresh bucket arrays. -/
theorem sortFoldRef_frame (st0 : EventStore) (g : List (Int × Nat))
    (st : EventStore)
    (hread : ∀ q, q < st0.arrays.length → st.read q = st0.read q)
    (hrefs : ∀ p ∈ g, st0.arrays.length ≤ p.2) :
    ∀ q, q < st0.arrays.length →
      (g.foldl (fun stc p => stc.sortAt p.2) st).read q = st0.read q := by
  induction g generalizing st with
  | nil => exact hread
  | cons p rest ih =>
    simp only [List.foldl_cons]
    refine ih (st.sortAt p.2) ?_
      (fun p' hp' => hrefs p' (List.mem_cons_of_mem _ hp'))
    intro q hq
    have hp2 : st0.arrays.length ≤ p.2 := hrefs p (List.mem_cons_self _ _)
    simp only [EventStore.sortAt, EventStore.read]
    rw [readList_writeList_ne _ _ _ _ (by omega)]
    exact hread q hq

/-- C9: `groupEventsByDate` does not mutate its input.  At the reference
level, every array that existed before the call — in particular the input
events array — reads back unchanged afterwards (same length, order and
event fields), and every bucket array in the returned map is freshly
allocated (its reference is at or above the original store size). -/
theorem groupEventsByDateRef_frame (st : EventStore) (inputRef : Nat)
    (now : Int) :
    (∀ q, q < st.arrays.length →
      (groupEventsByDateRef st inputRef now).1.read q = st.read q) ∧
    (inputRef < st.arrays.length →
      (groupEventsByDateRef st inputRef now).1.read inputRef =
        st.read inputRef) ∧
    (∀ p ∈ (groupEventsByDateRef st inputRef now).2,
      st.arrays.length ≤ p.2) := by
  have h := foldEventsRef_frame st (st.read inputRef)
    (1440 * civilDay now) st [] le_rfl (fun q _ => rfl) (by simp)
  have hsort := sortFoldRef_frame st _ _ h.2.1 h.2.2
  refine ⟨?_, ?_, ?_⟩
  · intro q hq
    exact hsort q hq
  · intro h0
    exact hsort inputRef h0
  · exact h.2.2

/-- Witness for C9: a one-array store holding [standupEvent]; after the call
the input array still reads back as [standupEvent] and the bucket reference
for 2024-01-15 is fresh (≥ 1). -/
theorem groupEventsByDateRef_frame_witness :
    (groupEventsByDateRef ⟨[[standupEvent]]⟩ 0 28421280).1.read 0 =
      [standupEvent] ∧
    (∀ p ∈ (groupEventsByDateRef ⟨[[standupEvent]]⟩ 0 28421280).2,
      1 ≤ p.2) := by
  have h := groupEventsByDateRef_frame ⟨[[standupEvent]]⟩ 0 28421280
  exact ⟨h.2.1 (by decide), h.2.2⟩

/-! ### Decimal string lemmas (for the date-key round trip) -/

/-- The field of `String.mk`. -/
theorem data_mk (cs : List Char) : (String.mk cs).data = cs := rfl

/-- All digits produced by `toDigitsRev` are below 10. -/
theorem toDigitsRev_lt (fuel n : Nat) : ∀ x ∈ toDigitsRev fuel n, x < 10 := by
  induction fuel generalizing n with
  | zero =>
    intro x hx
    simp [toDigitsRev] at hx
  | succ f ih =>
    intro x hx
    by_cases hn : n = 0
    · simp [toDigitsRev, hn] at hx
    · simp only [toDigitsRev, if_neg hn, List.mem_cons] at hx
      rcases hx with rfl | hx
      · omega
      · exact ih (n / 10) x hx

/-- `toDigitsRev` of zero is empty regardless of fuel. -/
theorem toDigitsRev_zero (fuel : Nat) : toDigitsRev fuel 0 = [] := by
  cases fuel <;> rfl

/-- Reading back a digit character. -/
theorem charVal_digitChar (x : Nat) (h : x < 10) :
    charVal (Nat.digitChar x) = x := by
  interval_cases x <;> decide

/-- Folding the big-endian digit characters recovers the little-endian
digit value. -/
theorem charsToNat_reverse_digits : ∀ (L : List Nat), (∀ x ∈ L, x < 10) →
    charsToNat (L.reverse.map Nat.digitChar) = Nat.ofDigits 10 L := by
  intro L
  induction L with
  | nil => intro _; rfl
  | cons x T ih =>
    intro hL
    have hx : x < 10 := hL x (List.mem_cons_self _ _)
    have hT : ∀ y ∈ T, y < 10 := fun y hy => hL y (List.mem_cons_of_mem _ hy)
    simp only [List.reverse_cons, List.map_append, List.map_cons,
      List.map_nil]
    unfold charsToNat
    rw [List.foldl_append]
    simp only [List.foldl_cons, List.foldl_nil]
    have hrw := ih hT
    unfold charsToNat at hrw
    rw [hrw, charVal_digitChar x hx, Nat.ofDigits_cons]
    omega

/-- The digit expansion is correct whenever the fuel suffices. -/
theorem ofDigits_toDigitsRev (fuel n : Nat) (h : n ≤ fuel) :
    Nat.ofDigits 10 (toDigitsRev fuel n) = n := by
  induction fuel generalizing n with
  | zero =>
    have : n = 0 := by omega
    subst this
    rfl
  | succ f ih =>
    by_cases hn : n = 0
    · subst hn
      rw [toDigitsRev_zero]
      rfl
    · simp only [toDigitsRev, if_neg hn]
      rw [Nat.ofDigits_cons, ih (n / 10) (by omega)]
      omega

/-- Parsing back `String(n)`. -/
theorem charsToNat_natChars (n : Nat) : charsToNat (natChars n) = n := by
  by_cases hn : n = 0
  · subst hn
    decide
  · unfold natChars
    rw [if_neg hn, charsToNat_reverse_digits _ (toDigitsRev_lt n n),
      ofDigits_toDigitsRev n n le_rfl]

/-- `String(n)` consists of decimal digit characters (never `'-'`). -/
theorem natChars_digits (n : Nat) :
    ∀ c ∈ natChars n, c.isDigit ∧ c ≠ '-' := by
  by_cases hn : n = 0
  · subst hn
    intro c hc
    rcases List.mem_singleton.mp hc with rfl
    exact ⟨by decide, by decide⟩
  · unfold natChars
    rw [if_neg hn]
    intro c hc
    rcases List.mem_map.mp hc with ⟨x, hx, rfl⟩
    have hb := toDigitsRev_lt n n x (List.mem_reverse.mp hx)
    interval_cases x <;> exact ⟨by decide, by decide⟩

/-- `String(n)` is never the empty string. -/
theorem natChars_ne_nil (n : Nat) : natChars n ≠ [] := by
  by_cases hn : n = 0
  · subst hn
    simp [natChars]
  · unfold natChars
    rw [if_neg hn]
    obtain ⟨m, rfl⟩ : ∃ m, n = m + 1 := ⟨n - 1, by omega⟩
    simp [toDigitsRev]

/-- `Number(String(n))` is `n`. -/
theorem jsNumber_natChars (n : Nat) : jsNumber (natChars n) = some (n : Int) := by
  have hne : (natChars n).isEmpty = false := by
    rcases hcs : natChars n with _ | ⟨c, cs⟩
    · exact absurd hcs (natChars_ne_nil n)
    · rfl
  have hall : (natChars n).all (fun c => c.isDigit) = true := by
    rw [List.all_eq_true]
    intro c hc
    exact (natChars_digits n c hc).1
  unfold jsNumber
  rw [hne, hall]
  simp [charsToNat_natChars]

/-- `padStart` facts for the bounded numbers in date keys (months 1-12 and
days 1-31): the padded string is two digit characters whose `Number` is the
original value. -/
theorem padTwoChars_facts (i : Int) (h1 : 1 ≤ i) (h2 : i ≤ 31) :
    jsNumber (padTwoChars i) = some i ∧ (padTwoChars i).length = 2 ∧
      '-' ∉ padTwoChars i := by
  interval_cases i <;> exact ⟨by decide, by decide, by decide⟩

/-- `split('-')` of a dash-free string. -/
theorem splitDash_no_dash (D : List Char) (h : '-' ∉ D) :
    splitDash D = [D] := by
  induction D with
  | nil => rfl
  | cons c D' ih =>
    have hc : c ≠ '-' := fun hcc => h (by rw [hcc]; exact List.mem_cons_self _ _)
    have hD' : '-' ∉ D' := fun hd => h (List.mem_cons_of_mem _ hd)
    simp only [splitDash, if_neg hc, ih hD']

/-- `split('-')` peels off a dash-free prefix at its separator. -/
theorem splitDash_append (A B : List Char) (h : '-' ∉ A) :
    splitDash (A ++ '-' :: B) = A :: splitDash B := by
  induction A with
  | nil => simp [splitDash]
  | cons c A' ih =>
    have hc : c ≠ '-' := fun hcc => h (by rw [hcc]; exact List.mem_cons_self _ _)
    have hA' : '-' ∉ A' := fun hd => h (List.mem_cons_of_mem _ hd)
    simp only [List.cons_append, splitDash, if_neg hc, List.append_eq,
      ih hA']

/-- Months are at most 31 days long. -/
theorem daysInMonth_le (y m : Int) : daysInMonth y m ≤ 31 := by
  unfold daysInMonth
  split_ifs <;> omega

/-- `new Date(y, m - 1, d)` on an in-range month and a year ≥ 100 is the
civil triple itself. -/
theorem mkJSDate_in_range (y m d : Int) (hy : 100 ≤ y) (hm1 : 1 ≤ m)
    (hm2 : m ≤ 12) :
    mkJSDate (some y) (some (m - 1)) (some d) = some ⟨y, m, d⟩ := by
  have hyr : ¬ (0 ≤ y ∧ y ≤ 99) := by omega
  show some (⟨(if 0 ≤ y ∧ y ≤ 99 then y + 1900 else y) + (m - 1) / 12,
    (m - 1) % 12 + 1, d⟩ : JSCivilDate) = some ⟨y, m, d⟩
  rw [if_neg hyr]
  have h12 : (m - 1) / 12 = 0 := by omega
  have h12b : (m - 1) % 12 = m - 1 := by omega
  rw [h12, h12b]
  simp only [Option.some.injEq, JSCivilDate.mk.injEq]
  refine ⟨by omega, by omega, trivial⟩

/-! ### Claim theorems: date keys -/

/-- C10 counterexample: the valid civil date year 5, month 3, day 4 (a
representable JavaScript `Date`).  `getDateKey` renders it as `"5-03-04"`
and `parseDateKey` returns year 1905: the `new Date(year, month, day)`
constructor interprets a year argument between 0 and 99 as `1900 + year`,
so the round trip changes the year. -/
theorem getDateKey_parseDateKey_year5_counterexample :
    getDateKey ⟨5, 3, 4⟩ = "5-03-04" ∧
    (1 ≤ (4 : Int) ∧ (4 : Int) ≤ daysInMonth 5 3) ∧
    parseDateKey "5-03-04" = some ⟨1905, 3, 4⟩ ∧
    parseDateKey (getDateKey ⟨5, 3, 4⟩) ≠ some ⟨5, 3, 4⟩ := by
  decide

/-- C10 (amended): for every valid civil date with full year at least 100,
`getDateKey` produces the year's digits, a dash, the zero-padded two-digit
month, a dash, and the zero-padded two-digit day, and
`parseDateKey (getDateKey d)` recovers exactly `d`'s year, month and day.
(For years 0-99 the constructor's `1900 +` rule breaks the round trip — see
the counterexample — and negative years additionally break the split on
`'-'`.) -/
theorem getDateKey_parseDateKey_roundtrip (dt : JSCivilDate)
    (hy : 100 ≤ dt.year) (hm1 : 1 ≤ dt.month) (hm2 : dt.month ≤ 12)
    (hd1 : 1 ≤ dt.day) (hd2 : dt.day ≤ daysInMonth dt.year dt.month) :
    parseDateKey (getDateKey dt) = some dt ∧
    (getDateKey dt).data = jsIntChars dt.year ++
      '-' :: (padTwoChars dt.month ++ '-' :: padTwoChars dt.day) ∧
    (padTwoChars dt.month).length = 2 ∧
    (padTwoChars dt.day).length = 2 := by
  have hd31 : dt.day ≤ 31 := le_trans hd2 (daysInMonth_le dt.year dt.month)
  have hmF := padTwoChars_facts dt.month hm1 (by omega)
  have hdF := padTwoChars_facts dt.day hd1 hd31
  have hyC : jsIntChars dt.year = natChars dt.year.toNat := by
    unfold jsIntChars
    rw [if_neg (by omega)]
  have hynod : '-' ∉ jsIntChars dt.year := by
    rw [hyC]
    intro hc
    exact (natChars_digits _ _ hc).2 rfl
  refine ⟨?_, rfl, hmF.2.1, hdF.2.1⟩
  unfold parseDateKey getDateKey
  rw [data_mk, splitDash_append _ _ hynod, splitDash_append _ _ hmF.2.2,
    splitDash_no_dash _ hdF.2.2, hyC]
  show mkJSDate (jsNumber (natChars dt.year.toNat))
    ((jsNumber (padTwoChars dt.month)).map (fun x => x - 1))
    (jsNumber (padTwoChars dt.day)) = some dt
  rw [jsNumber_natChars, hmF.1, hdF.1]
  have hcast : ((dt.year.toNat : Nat) : Int) = dt.year := by omega
  rw [hcast]
  show mkJSDate (some dt.year) (some (dt.month - 1)) (some dt.day) = some dt
  rw [mkJSDate_in_range dt.year dt.month dt.day hy hm1 hm2]

/-- Witness for C10: the round trip at 2024-01-15. -/
theorem getDateKey_parseDateKey_roundtrip_witness :
    parseDateKey (getDateKey ⟨2024, 1, 15⟩) = some ⟨2024, 1, 15⟩ ∧
    (padTwoChars ((⟨2024, 1, 15⟩ : JSCivilDate).month)).length = 2 := by
  have h := getDateKey_parseDateKey_roundtrip ⟨2024, 1, 15⟩ (by decide)
    (by decide) (by decide) (by decide) (by decide)
  exact ⟨h.1, h.2.2.1⟩
